import Mathlib

/-! Verification of the collaborative-canvas server core
(`src/server/drawing-state.js`, `src/server/rooms.js`, `src/server/server.js`).

JavaScript runtime values that appear in event payloads are modelled by the
inductive `JSVal`; the server's per-room drawing state (`DrawingState`) and the
membership tracker (`RoomManager`) keep their JavaScript `Map`s as functions
from room identifiers to optional room records.
-/

namespace CollabCanvas

/-- Model of a JavaScript runtime value, as far as the server's event payloads
need: `undefined`, `null`, numbers (modelled as integers), strings, booleans,
arrays, and plain objects (ordered association lists of fields). -/
inductive JSVal where
  | undefined : JSVal
  | null : JSVal
  | num : Int → JSVal
  | str : String → JSVal
  | bool : Bool → JSVal
  | arr : List JSVal → JSVal
  | obj : List (String × JSVal) → JSVal

instance : Inhabited JSVal := ⟨JSVal.undefined⟩

/-- JavaScript truthiness: `undefined`, `null`, `0`, `""` and `false` are
falsy; every array and object is truthy. -/
def JSVal.truthy : JSVal → Bool
  | .undefined => false
  | .null => false
  | .num n => n != 0
  | .str s => s != ""
  | .bool b => b
  | .arr _ => true
  | .obj _ => true

/-- Test `Array.isArray(v)`. -/
def JSVal.isArray : JSVal → Bool
  | .arr _ => true
  | _ => false

/-- Property access `v.k`: field lookup on an object, `undefined` on every
other value (the handlers only access fields after a truthiness guard, so the
exception on `null`/`undefined` access is never reached). -/
def JSVal.getField : JSVal → String → JSVal
  | .obj fields, k => (fields.lookup k).getD .undefined
  | _, _ => .undefined

/-- Update of one field of an ordered field list: an existing key keeps its
position (JavaScript property-order semantics), a new key is appended. -/
def setAssoc : List (String × JSVal) → String → JSVal → List (String × JSVal)
  | [], k, v => [(k, v)]
  | (k', v') :: rest, k, v =>
      if k' = k then (k, v) :: rest else (k', v') :: setAssoc rest k v

/-- The object-spread update `{...data, k: v}` for an object payload (the
handlers only spread payloads that passed the truthiness/array validation, so
`data` is always an object there; a primitive would spread to a fresh
object). -/
def JSVal.setField : JSVal → String → JSVal → JSVal
  | .obj fields, k, v => .obj (setAssoc fields k v)
  | _, k, v => .obj [(k, v)]

/-! Section: Action Log — `src/server/drawing-state.js` -/

/-- One per-room record of the `DrawingState` map:
`{ history: [], undoneActions: [] }` (constructor of `_initRoom`,
drawing-state.js lines 17–24). -/
structure RoomRec where
  history : List JSVal
  undoneActions : List JSVal

/-- The `DrawingState` class (drawing-state.js lines 3–162): a `Map` from room
identifiers to room records, plus the instance field `MAX_HISTORY_SIZE`
(set to 1000 in the constructor, line 10). -/
structure DrawingState where
  rooms : String → Option RoomRec
  MAX_HISTORY_SIZE : Nat

/-- A `DrawingState` with an empty `rooms` map and the given configured
maximum history size. -/
def freshState (maxSize : Nat) : DrawingState :=
  ⟨fun _ => none, maxSize⟩

/-- Constructor `new DrawingState()` (constructor, drawing-state.js lines 4–11): empty
`rooms` map, `MAX_HISTORY_SIZE = 1000`. -/
def DrawingState.new : DrawingState :=
  freshState 1000

/-- Map update `this.rooms.set(roomId, rec)`. -/
def DrawingState.setRoom (ds : DrawingState) (roomId : String) (rec : RoomRec) :
    DrawingState :=
  { ds with rooms := fun r => if r = roomId then some rec else ds.rooms r }

/-- Map read `this.rooms.get(roomId)`, read as a total view: rooms absent from the map
are seen as the empty record (every method calls `_initRoom` before the
lookup, so inside the methods the default branch is never the one used). -/
def DrawingState.getRoom (ds : DrawingState) (roomId : String) : RoomRec :=
  (ds.rooms roomId).getD ⟨[], []⟩

/-- Method `_initRoom(roomId)` (drawing-state.js lines 17–24): insert an empty room
record if the map has no entry for `roomId`. -/
def DrawingState.initRoom (ds : DrawingState) (roomId : String) : DrawingState :=
  if (ds.rooms roomId).isSome then ds else ds.setRoom roomId ⟨[], []⟩

/-- The history update performed by `addAction` (drawing-state.js lines 37 and
43–45): `history.push(action)`, then if `history.length > MAX_HISTORY_SIZE`,
`history.shift()` removes the oldest entry. -/
def pushBounded (maxSize : Nat) (history : List JSVal) (action : JSVal) :
    List JSVal :=
  let pushed := history ++ [action]
  if pushed.length > maxSize then pushed.tail else pushed

/-- Method `addAction(roomId, action)` (drawing-state.js lines 31–48): init the room,
push the action onto `history`, reset `undoneActions` to `[]`, and trim the
oldest entry when the bound is exceeded. -/
def DrawingState.addAction (ds : DrawingState) (roomId : String)
    (action : JSVal) : DrawingState :=
  let ds1 := ds.initRoom roomId
  let room := ds1.getRoom roomId
  ds1.setRoom roomId ⟨pushBounded ds1.MAX_HISTORY_SIZE room.history action, []⟩

/-- Method `getHistory(roomId)` (drawing-state.js lines 55–58): `_initRoom` (a state
change when the room was absent), then return the room's `history`. -/
def DrawingState.getHistory (ds : DrawingState) (roomId : String) :
    DrawingState × List JSVal :=
  let ds1 := ds.initRoom roomId
  (ds1, (ds1.getRoom roomId).history)

/-- Method `undo(roomId)` (drawing-state.js lines 65–82): on an empty history return
`false`; otherwise pop the last element of `history`, push it onto
`undoneActions`, and return `true`. -/
def DrawingState.undo (ds : DrawingState) (roomId : String) :
    DrawingState × Bool :=
  let ds1 := ds.initRoom roomId
  let room := ds1.getRoom roomId
  if room.history.length = 0 then
    (ds1, false)
  else
    (ds1.setRoom roomId
      ⟨room.history.dropLast,
        room.undoneActions ++ [room.history.getLastD .undefined]⟩, true)

/-- Method `redo(roomId)` (drawing-state.js lines 89–106): on an empty
`undoneActions` return `false`; otherwise pop the last undone action and push
it back onto `history`, returning `true`. -/
def DrawingState.redo (ds : DrawingState) (roomId : String) :
    DrawingState × Bool :=
  let ds1 := ds.initRoom roomId
  let room := ds1.getRoom roomId
  if room.undoneActions.length = 0 then
    (ds1, false)
  else
    (ds1.setRoom roomId
      ⟨room.history ++ [room.undoneActions.getLastD .undefined],
        room.undoneActions.dropLast⟩, true)

/-- Method `clear(roomId)` (drawing-state.js lines 112–120): reset both `history`
and `undoneActions` to `[]`. -/
def DrawingState.clear (ds : DrawingState) (roomId : String) : DrawingState :=
  let ds1 := ds.initRoom roomId
  ds1.setRoom roomId ⟨[], []⟩

/-- Method `getHistoryLength(roomId)` (drawing-state.js lines 127–130). -/
def DrawingState.getHistoryLength (ds : DrawingState) (roomId : String) :
    DrawingState × Nat :=
  let ds1 := ds.initRoom roomId
  (ds1, (ds1.getRoom roomId).history.length)

/-- Method `canUndo(roomId)` (drawing-state.js lines 137–140):
`history.length > 0`. -/
def DrawingState.canUndo (ds : DrawingState) (roomId : String) :
    DrawingState × Bool :=
  let ds1 := ds.initRoom roomId
  (ds1, decide (0 < (ds1.getRoom roomId).history.length))

/-- Method `canRedo(roomId)` (drawing-state.js lines 147–150):
`undoneActions.length > 0`. -/
def DrawingState.canRedo (ds : DrawingState) (roomId : String) :
    DrawingState × Bool :=
  let ds1 := ds.initRoom roomId
  (ds1, decide (0 < (ds1.getRoom roomId).undoneActions.length))

/-- Method `deleteRoom(roomId)` (drawing-state.js lines 156–161): remove the room's
entry from the map when present. -/
def DrawingState.deleteRoom (ds : DrawingState) (roomId : String) :
    DrawingState :=
  if (ds.rooms roomId).isSome then
    { ds with rooms := fun r => if r = roomId then none else ds.rooms r }
  else ds

/-! Section: Membership Tracker — `src/server/rooms.js` -/

/-- One participant entry `{ userId, color, joinedAt }` (rooms.js
lines 30–34). -/
structure User where
  userId : String
  color : String
  joinedAt : Int
deriving DecidableEq

/-- The `RoomManager` class (rooms.js lines 6–113): a `Map` from room
identifiers to participant lists in join order. -/
structure RoomManager where
  rooms : String → Option (List User)

/-- Constructor `new RoomManager()` (rooms.js lines 7–11). -/
def RoomManager.new : RoomManager :=
  ⟨fun _ => none⟩

/-- Map update `this.rooms.set(roomId, users)`. -/
def RoomManager.setRoom (m : RoomManager) (roomId : String)
    (users : List User) : RoomManager :=
  ⟨fun r => if r = roomId then some users else m.rooms r⟩

/-- Method `addUser(roomId, userId, color)` (rooms.js lines 19–38): create the room
list if absent, then push a new entry with `joinedAt = Date.now()` only when
`room.find(u => u.userId === userId)` finds no existing entry. `now` stands
for `Date.now()`. -/
def RoomManager.addUser (m : RoomManager) (roomId userId color : String)
    (now : Int) : RoomManager :=
  let m1 := if (m.rooms roomId).isSome then m else m.setRoom roomId []
  let room := (m1.rooms roomId).getD []
  if room.any (fun u => u.userId == userId) then m1
  else m1.setRoom roomId (room ++ [⟨userId, color, now⟩])

/-- Method `getUsers(roomId)` (rooms.js lines 70–76): the room's participant list,
or `[]` for an unknown room. -/
def RoomManager.getUsers (m : RoomManager) (roomId : String) : List User :=
  match m.rooms roomId with
  | none => []
  | some users => users

/-- Number of participant entries carrying the given `userId` in a
participant list. -/
def countUser (users : List User) (userId : String) : Nat :=
  (users.filter (fun u => u.userId == userId)).length

/-! Section: Session Coordinator — `src/server/server.js` -/

/-- The audience of one socket.io emission: `socket.to(roomId).emit(...)`
reaches every participant of the room except the sender, while
`io.to(roomId).emit(...)` reaches every participant including the sender. -/
inductive Audience where
  | othersInRoom : String → String → Audience
  | allInRoom : String → Audience
deriving DecidableEq

/-- Whether a participant identified by `uid` (assumed to be in the room)
receives an emission with this audience. -/
def Audience.reaches : Audience → String → Bool
  | .othersInRoom _ sender, uid => uid != sender
  | .allInRoom _, _ => true

/-- One outbound socket.io emission: event name, audience, payload. -/
structure Emission where
  event : String
  audience : Audience
  payload : JSVal

/-- The validation failure test of the `DRAW_ACTION` handler (server.js
line 68): `!data || !data.path || !Array.isArray(data.path)`. -/
def invalidDrawData (data : JSVal) : Bool :=
  !data.truthy || !(data.getField "path").truthy ||
    !(data.getField "path").isArray

/-- The stamped action built by the `DRAW_ACTION` handler (server.js
lines 74–78): `{...data, userId: socket.id, timestamp: Date.now()}`. -/
def stampAction (data : JSVal) (senderId : String) (now : Int) : JSVal :=
  (data.setField "userId" (.str senderId)).setField "timestamp" (.num now)

/-- The `DRAW_ACTION` handler (server.js lines 65–88): drop the event when
validation fails (log only — no state change, no emission, nothing raised to
the sender); otherwise stamp the action with the sender id and a server
timestamp, `addAction` it into the drawing state, and emit `DRAW_ACTION` to
the other participants of the room (`socket.to(roomId)`). -/
def handleDrawAction (ds : DrawingState) (roomId senderId : String)
    (data : JSVal) (now : Int) : DrawingState × List Emission :=
  if invalidDrawData data then
    (ds, [])
  else
    let action := stampAction data senderId now
    let ds1 := ds.addAction roomId action
    (ds1, [⟨"DRAW_ACTION", .othersInRoom roomId senderId, action⟩])

/-- The `UNDO` handler (server.js lines 111–124): call `undo`; only on
success emit `UNDO_ACTION` with the updated history to the whole room
(`io.to(roomId)`, sender included). -/
def handleUndo (ds : DrawingState) (roomId : String) :
    DrawingState × List Emission :=
  let p := ds.undo roomId
  if p.2 then
    let q := p.1.getHistory roomId
    (q.1, [⟨"UNDO_ACTION", .allInRoom roomId, .obj [("history", .arr q.2)]⟩])
  else
    (p.1, [])

/-- The `REDO` handler (server.js lines 130–143): call `redo`; only on
success emit `REDO_ACTION` with the updated history to the whole room. -/
def handleRedo (ds : DrawingState) (roomId : String) :
    DrawingState × List Emission :=
  let p := ds.redo roomId
  if p.2 then
    let q := p.1.getHistory roomId
    (q.1, [⟨"REDO_ACTION", .allInRoom roomId, .obj [("history", .arr q.2)]⟩])
  else
    (p.1, [])

/-! Section: Operation sequences over the Action Log -/

/-- One call to a public method of `DrawingState`, used to quantify over
arbitrary operation sequences. -/
inductive DSOp where
  | addAction : String → JSVal → DSOp
  | undo : String → DSOp
  | redo : String → DSOp
  | clear : String → DSOp
  | getHistory : String → DSOp
  | getHistoryLength : String → DSOp
  | canUndo : String → DSOp
  | canRedo : String → DSOp
  | deleteRoom : String → DSOp

/-- The state reached after one `DrawingState` method call. -/
def DrawingState.applyOp (ds : DrawingState) : DSOp → DrawingState
  | .addAction r a => ds.addAction r a
  | .undo r => (ds.undo r).1
  | .redo r => (ds.redo r).1
  | .clear r => ds.clear r
  | .getHistory r => (ds.getHistory r).1
  | .getHistoryLength r => (ds.getHistoryLength r).1
  | .canUndo r => (ds.canUndo r).1
  | .canRedo r => (ds.canRedo r).1
  | .deleteRoom r => ds.deleteRoom r

/-- The state reached after a sequence of `DrawingState` method calls. -/
def applyOps (ds : DrawingState) (ops : List DSOp) : DrawingState :=
  ops.foldl DrawingState.applyOp ds

/-! Section: spec-side stroke validity.

The specification describes the stroke validation as requiring a `path` that
is "a proper ordered list of at least one coordinate pair (numeric x, y)".
The following definitions follow the specification's words (not the code) so
the two validations can be compared. -/

/-- Spec-side: a coordinate pair, an object with numeric `x` and `y`. -/
def JSVal.isPoint : JSVal → Bool
  | .obj fields =>
      (match (fields.lookup "x").getD .undefined with
        | .num _ => true
        | _ => false) &&
      (match (fields.lookup "y").getD .undefined with
        | .num _ => true
        | _ => false)
  | _ => false

/-- Spec-side: a proper ordered list of at least one coordinate pair. -/
def specProperPath : JSVal → Bool
  | .arr elems => !elems.isEmpty && elems.all JSVal.isPoint
  | _ => false

/-- Spec-side: a stroke payload is malformed when it lacks a `path` or its
`path` is not a proper ordered list of at least one coordinate pair. -/
def specStrokeMalformed (data : JSVal) : Bool :=
  !specProperPath (data.getField "path")

/-! Section: Sample payloads used by witnesses and counterexamples -/

/-- A coordinate pair `{x, y}`. -/
def samplePoint (x y : Int) : JSVal :=
  .obj [("x", .num x), ("y", .num y)]

/-- A well-formed, non-finalized stroke payload with a two-point path. -/
def sampleStroke : JSVal :=
  .obj [("tool", .str "brush"),
        ("path", .arr [samplePoint 0 0, samplePoint 1 1]),
        ("color", .str "#ff0000"), ("size", .num 3)]

/-- The same stroke payload with `finalized: true`. -/
def sampleStrokeFinalized : JSVal :=
  .obj [("tool", .str "brush"),
        ("path", .arr [samplePoint 0 0, samplePoint 1 1]),
        ("color", .str "#ff0000"), ("size", .num 3),
        ("finalized", .bool true)]

/-- A stroke payload whose `path` is an array with zero coordinate pairs. -/
def emptyPathStroke : JSVal :=
  .obj [("tool", .str "brush"), ("path", .arr []),
        ("color", .str "#ff0000"), ("size", .num 3)]

/-! Section: Basic lemmas about the Action Log operations -/

lemma DrawingState.getRoom_setRoom_self (ds : DrawingState) (r : String)
    (rec : RoomRec) : (ds.setRoom r rec).getRoom r = rec := by
  simp [DrawingState.setRoom, DrawingState.getRoom]

lemma DrawingState.getRoom_setRoom_of_ne (ds : DrawingState) {r r' : String}
    (rec : RoomRec) (h : r' ≠ r) :
    (ds.setRoom r rec).getRoom r' = ds.getRoom r' := by
  simp [DrawingState.setRoom, DrawingState.getRoom, h]

lemma DrawingState.MAX_setRoom (ds : DrawingState) (r : String)
    (rec : RoomRec) :
    (ds.setRoom r rec).MAX_HISTORY_SIZE = ds.MAX_HISTORY_SIZE := rfl

lemma DrawingState.rooms_setRoom_self_isSome (ds : DrawingState) (r : String)
    (rec : RoomRec) : ((ds.setRoom r rec).rooms r).isSome = true := by
  simp [DrawingState.setRoom]

lemma DrawingState.initRoom_of_isSome {ds : DrawingState} {r : String}
    (h : (ds.rooms r).isSome = true) : ds.initRoom r = ds := by
  simp [DrawingState.initRoom, h]

lemma DrawingState.getRoom_initRoom (ds : DrawingState) (r r' : String) :
    (ds.initRoom r).getRoom r' = ds.getRoom r' := by
  unfold DrawingState.initRoom
  split
  · rfl
  · rename_i hn
    rcases eq_or_ne r' r with h | h
    · subst h
      rw [DrawingState.getRoom_setRoom_self]
      unfold DrawingState.getRoom
      cases hx : ds.rooms r' with
      | none => rfl
      | some rec => rw [hx] at hn; simp at hn
    · exact DrawingState.getRoom_setRoom_of_ne ds _ h

lemma DrawingState.MAX_initRoom (ds : DrawingState) (r : String) :
    (ds.initRoom r).MAX_HISTORY_SIZE = ds.MAX_HISTORY_SIZE := by
  unfold DrawingState.initRoom
  split <;> rfl

lemma DrawingState.addAction_eq (ds : DrawingState) (r : String) (a : JSVal) :
    ds.addAction r a = (ds.initRoom r).setRoom r
      ⟨pushBounded ds.MAX_HISTORY_SIZE ((ds.getRoom r)).history a, []⟩ := by
  show (ds.initRoom r).setRoom r
    ⟨pushBounded (ds.initRoom r).MAX_HISTORY_SIZE
      ((ds.initRoom r).getRoom r).history a, []⟩ = _
  rw [DrawingState.MAX_initRoom, DrawingState.getRoom_initRoom]

lemma DrawingState.getRoom_addAction_self (ds : DrawingState) (r : String)
    (a : JSVal) :
    (ds.addAction r a).getRoom r =
      ⟨pushBounded ds.MAX_HISTORY_SIZE (ds.getRoom r).history a, []⟩ := by
  rw [DrawingState.addAction_eq, DrawingState.getRoom_setRoom_self]

lemma DrawingState.getRoom_addAction_of_ne (ds : DrawingState)
    {r r' : String} (a : JSVal) (h : r' ≠ r) :
    (ds.addAction r a).getRoom r' = ds.getRoom r' := by
  rw [DrawingState.addAction_eq, DrawingState.getRoom_setRoom_of_ne _ _ h,
    DrawingState.getRoom_initRoom]

lemma DrawingState.MAX_addAction (ds : DrawingState) (r : String)
    (a : JSVal) :
    (ds.addAction r a).MAX_HISTORY_SIZE = ds.MAX_HISTORY_SIZE := by
  rw [DrawingState.addAction_eq, DrawingState.MAX_setRoom,
    DrawingState.MAX_initRoom]

lemma DrawingState.rooms_addAction_isSome (ds : DrawingState) (r : String)
    (a : JSVal) : ((ds.addAction r a).rooms r).isSome = true := by
  rw [DrawingState.addAction_eq]
  exact DrawingState.rooms_setRoom_self_isSome _ _ _

lemma DrawingState.undo_of_nil {ds : DrawingState} {r : String}
    (h : (ds.getRoom r).history = []) :
    ds.undo r = (ds.initRoom r, false) := by
  simp only [DrawingState.undo, DrawingState.getRoom_initRoom, h,
    List.length_nil, if_pos]

lemma DrawingState.undo_of_concat {ds : DrawingState} {r : String}
    {l : List JSVal} {x : JSVal} (h : (ds.getRoom r).history = l ++ [x]) :
    ds.undo r = ((ds.initRoom r).setRoom r
      ⟨l, (ds.getRoom r).undoneActions ++ [x]⟩, true) := by
  simp only [DrawingState.undo, DrawingState.getRoom_initRoom, h]
  rw [if_neg (by simp)]
  rw [List.dropLast_concat, List.getLastD_concat]

lemma DrawingState.redo_of_nil {ds : DrawingState} {r : String}
    (h : (ds.getRoom r).undoneActions = []) :
    ds.redo r = (ds.initRoom r, false) := by
  simp only [DrawingState.redo, DrawingState.getRoom_initRoom, h,
    List.length_nil, if_pos]

lemma DrawingState.redo_of_concat {ds : DrawingState} {r : String}
    {u : List JSVal} {x : JSVal}
    (h : (ds.getRoom r).undoneActions = u ++ [x]) :
    ds.redo r = ((ds.initRoom r).setRoom r
      ⟨(ds.getRoom r).history ++ [x], u⟩, true) := by
  simp only [DrawingState.redo, DrawingState.getRoom_initRoom, h]
  rw [if_neg (by simp)]
  rw [List.dropLast_concat, List.getLastD_concat]

/-! Section: The history bound -/

lemma pushBounded_of_le {m : Nat} {h : List JSVal} (a : JSVal)
    (hle : h.length + 1 ≤ m) : pushBounded m h a = h ++ [a] := by
  unfold pushBounded
  rw [if_neg (by simp; omega)]

lemma pushBounded_of_gt {m : Nat} {h : List JSVal} (a : JSVal)
    (hgt : m < h.length + 1) : pushBounded m h a = (h ++ [a]).tail := by
  unfold pushBounded
  rw [if_pos (by simp; omega)]

lemma pushBounded_length_le {m : Nat} {h : List JSVal} (a : JSVal)
    (hh : h.length ≤ m) : (pushBounded m h a).length ≤ m := by
  by_cases hc : h.length + 1 ≤ m
  · rw [pushBounded_of_le a hc]; simpa using hc
  · rw [pushBounded_of_gt a (by omega)]
    simp
    omega

/-- Folding the bounded push over a list keeps exactly the most recent
`m` entries: the result is the concatenation with the oldest entries
dropped. -/
lemma foldl_pushBounded (m : Nat) :
    ∀ (l h : List JSVal), h.length ≤ m →
      l.foldl (pushBounded m) h = (h ++ l).drop ((h ++ l).length - m) := by
  intro l
  induction l with
  | nil =>
      intro h hh
      simp [Nat.sub_eq_zero_of_le hh]
  | cons a l ih =>
      intro h hh
      rw [List.foldl_cons, ih _ (pushBounded_length_le a hh)]
      by_cases hc : h.length + 1 ≤ m
      · rw [pushBounded_of_le a hc]
        simp [List.append_assoc]
      · have hm : h.length = m := by omega
        rw [pushBounded_of_gt a (by omega)]
        cases h with
        | nil =>
            have hm0 : m = 0 := by simpa using hm.symm
            subst hm0
            simp
        | cons b t =>
            have ht : t.length + 1 = m := by simpa using hm
            simp only [List.cons_append, List.tail_cons]
            have h1 : (t ++ [a] ++ l).length - m = l.length := by
              simp
              omega
            have h2 : (b :: (t ++ a :: l)).length - m = l.length + 1 := by
              simp
              omega
            rw [h1]
            show _ = (b :: (t ++ a :: l)).drop ((b :: (t ++ a :: l)).length - m)
            rw [h2, List.drop_succ_cons]
            simp [List.append_assoc]

/-- The invariant protecting the history bound: in every room, the committed
history and the undone stack together never hold more than
`MAX_HISTORY_SIZE` actions. -/
def StateInv (ds : DrawingState) : Prop :=
  ∀ r, (ds.getRoom r).history.length +
    (ds.getRoom r).undoneActions.length ≤ ds.MAX_HISTORY_SIZE

lemma stateInv_freshState (m : Nat) : StateInv (freshState m) := by
  intro r
  simp [freshState, DrawingState.getRoom]

lemma stateInv_initRoom {ds : DrawingState} (r : String) (h : StateInv ds) :
    StateInv (ds.initRoom r) := by
  intro r'
  rw [DrawingState.getRoom_initRoom, DrawingState.MAX_initRoom]
  exact h r'

lemma stateInv_addAction {ds : DrawingState} (r : String) (a : JSVal)
    (h : StateInv ds) : StateInv (ds.addAction r a) := by
  intro r'
  rw [DrawingState.MAX_addAction]
  rcases eq_or_ne r' r with hr | hr
  · subst hr
    rw [DrawingState.getRoom_addAction_self]
    have := h r'
    have hlen : (ds.getRoom r').history.length ≤ ds.MAX_HISTORY_SIZE := by
      omega
    simpa using pushBounded_length_le a hlen
  · rw [DrawingState.getRoom_addAction_of_ne _ _ hr]
    exact h r'

lemma stateInv_undo {ds : DrawingState} (r : String) (h : StateInv ds) :
    StateInv ((ds.undo r).1) := by
  rcases List.eq_nil_or_concat ((ds.getRoom r).history) with hn | ⟨l, x, hc⟩
  · rw [DrawingState.undo_of_nil hn]
    exact stateInv_initRoom r h
  · rw [List.concat_eq_append] at hc
    rw [DrawingState.undo_of_concat hc]
    intro r'
    rw [DrawingState.MAX_setRoom, DrawingState.MAX_initRoom]
    rcases eq_or_ne r' r with hr | hr
    · subst hr
      rw [DrawingState.getRoom_setRoom_self]
      have := h r'
      rw [hc] at this
      simp at this ⊢
      omega
    · rw [DrawingState.getRoom_setRoom_of_ne _ _ hr,
        DrawingState.getRoom_initRoom]
      exact h r'

lemma stateInv_redo {ds : DrawingState} (r : String) (h : StateInv ds) :
    StateInv ((ds.redo r).1) := by
  rcases List.eq_nil_or_concat ((ds.getRoom r).undoneActions) with hn | ⟨u, x, hc⟩
  · rw [DrawingState.redo_of_nil hn]
    exact stateInv_initRoom r h
  · rw [List.concat_eq_append] at hc
    rw [DrawingState.redo_of_concat hc]
    intro r'
    rw [DrawingState.MAX_setRoom, DrawingState.MAX_initRoom]
    rcases eq_or_ne r' r with hr | hr
    · subst hr
      rw [DrawingState.getRoom_setRoom_self]
      have := h r'
      rw [hc] at this
      simp at this ⊢
      omega
    · rw [DrawingState.getRoom_setRoom_of_ne _ _ hr,
        DrawingState.getRoom_initRoom]
      exact h r'

lemma DrawingState.clear_eq (ds : DrawingState) (r : String) :
    ds.clear r = (ds.initRoom r).setRoom r ⟨[], []⟩ := rfl

lemma stateInv_clear {ds : DrawingState} (r : String) (h : StateInv ds) :
    StateInv (ds.clear r) := by
  intro r'
  rw [DrawingState.clear_eq]
  rw [DrawingState.MAX_setRoom, DrawingState.MAX_initRoom]
  rcases eq_or_ne r' r with hr | hr
  · subst hr
    rw [DrawingState.getRoom_setRoom_self]
    simp
  · rw [DrawingState.getRoom_setRoom_of_ne _ _ hr,
      DrawingState.getRoom_initRoom]
    exact h r'

lemma stateInv_deleteRoom {ds : DrawingState} (r : String) (h : StateInv ds) :
    StateInv (ds.deleteRoom r) := by
  intro r'
  unfold DrawingState.deleteRoom
  split
  · rcases eq_or_ne r' r with hr | hr
    · subst hr
      simp [DrawingState.getRoom]
    · simpa [DrawingState.getRoom, hr] using h r'
  · exact h r'

lemma stateInv_applyOp {ds : DrawingState} (op : DSOp) (h : StateInv ds) :
    StateInv (ds.applyOp op) := by
  cases op with
  | addAction r a => exact stateInv_addAction r a h
  | undo r => exact stateInv_undo r h
  | redo r => exact stateInv_redo r h
  | clear r => exact stateInv_clear r h
  | getHistory r => exact stateInv_initRoom r h
  | getHistoryLength r => exact stateInv_initRoom r h
  | canUndo r => exact stateInv_initRoom r h
  | canRedo r => exact stateInv_initRoom r h
  | deleteRoom r => exact stateInv_deleteRoom r h

lemma stateInv_applyOps {ds : DrawingState} (ops : List DSOp)
    (h : StateInv ds) : StateInv (applyOps ds ops) := by
  induction ops generalizing ds with
  | nil => exact h
  | cons op ops ih => exact ih (stateInv_applyOp op h)

lemma getRoom_freshState (m : Nat) (r : String) :
    (freshState m).getRoom r = ⟨[], []⟩ := rfl

lemma MAX_freshState (m : Nat) : (freshState m).MAX_HISTORY_SIZE = m := rfl

lemma DrawingState.MAX_undo_fst (ds : DrawingState) (r : String) :
    ((ds.undo r).1).MAX_HISTORY_SIZE = ds.MAX_HISTORY_SIZE := by
  rcases List.eq_nil_or_concat ((ds.getRoom r).history) with hn | ⟨l, x, hc⟩
  · rw [DrawingState.undo_of_nil hn]
    exact DrawingState.MAX_initRoom ds r
  · rw [List.concat_eq_append] at hc
    rw [DrawingState.undo_of_concat hc]
    simp [DrawingState.MAX_setRoom, DrawingState.MAX_initRoom]

lemma DrawingState.MAX_redo_fst (ds : DrawingState) (r : String) :
    ((ds.redo r).1).MAX_HISTORY_SIZE = ds.MAX_HISTORY_SIZE := by
  rcases List.eq_nil_or_concat ((ds.getRoom r).undoneActions) with hn | ⟨u, x, hc⟩
  · rw [DrawingState.redo_of_nil hn]
    exact DrawingState.MAX_initRoom ds r
  · rw [List.concat_eq_append] at hc
    rw [DrawingState.redo_of_concat hc]
    simp [DrawingState.MAX_setRoom, DrawingState.MAX_initRoom]

lemma DrawingState.MAX_clear (ds : DrawingState) (r : String) :
    (ds.clear r).MAX_HISTORY_SIZE = ds.MAX_HISTORY_SIZE := by
  rw [DrawingState.clear_eq, DrawingState.MAX_setRoom,
    DrawingState.MAX_initRoom]

lemma DrawingState.MAX_deleteRoom (ds : DrawingState) (r : String) :
    (ds.deleteRoom r).MAX_HISTORY_SIZE = ds.MAX_HISTORY_SIZE := by
  unfold DrawingState.deleteRoom
  split <;> rfl

lemma DrawingState.MAX_applyOp (ds : DrawingState) (op : DSOp) :
    (ds.applyOp op).MAX_HISTORY_SIZE = ds.MAX_HISTORY_SIZE := by
  cases op with
  | addAction r a => exact DrawingState.MAX_addAction ds r a
  | undo r => exact DrawingState.MAX_undo_fst ds r
  | redo r => exact DrawingState.MAX_redo_fst ds r
  | clear r => exact DrawingState.MAX_clear ds r
  | getHistory r => exact DrawingState.MAX_initRoom ds r
  | getHistoryLength r => exact DrawingState.MAX_initRoom ds r
  | canUndo r => exact DrawingState.MAX_initRoom ds r
  | canRedo r => exact DrawingState.MAX_initRoom ds r
  | deleteRoom r => exact DrawingState.MAX_deleteRoom ds r

lemma MAX_applyOps (ops : List DSOp) (ds : DrawingState) :
    (applyOps ds ops).MAX_HISTORY_SIZE = ds.MAX_HISTORY_SIZE := by
  induction ops generalizing ds with
  | nil => rfl
  | cons op ops ih =>
      rw [show applyOps ds (op :: ops) = applyOps (ds.applyOp op) ops from rfl,
        ih, DrawingState.MAX_applyOp]

/-- Appending a list of actions into one room, seen at the history level. -/
lemma history_foldl_addAction (r : String) :
    ∀ (l : List JSVal) (ds : DrawingState),
      ((l.foldl (fun s a => s.addAction r a) ds).getRoom r).history
        = l.foldl (pushBounded ds.MAX_HISTORY_SIZE) (ds.getRoom r).history := by
  intro l
  induction l with
  | nil => intro ds; rfl
  | cons a l ih =>
      intro ds
      rw [List.foldl_cons, List.foldl_cons, ih]
      rw [DrawingState.MAX_addAction, DrawingState.getRoom_addAction_self]

lemma applyOps_map_addAction (r : String) (l : List JSVal)
    (ds : DrawingState) :
    applyOps ds (l.map (DSOp.addAction r))
      = l.foldl (fun s a => s.addAction r a) ds := by
  simp [applyOps, List.foldl_map, DrawingState.applyOp]

/-! Section: Projection corollaries for undo/redo and the handlers -/

lemma DrawingState.undo_fst_of_nil {ds : DrawingState} {r : String}
    (h : (ds.getRoom r).history = []) :
    (ds.undo r).1 = ds.initRoom r := by
  rw [DrawingState.undo_of_nil h]

lemma DrawingState.undo_snd_of_nil {ds : DrawingState} {r : String}
    (h : (ds.getRoom r).history = []) :
    (ds.undo r).2 = false := by
  rw [DrawingState.undo_of_nil h]

lemma DrawingState.undo_fst_of_concat {ds : DrawingState} {r : String}
    {l : List JSVal} {x : JSVal} (h : (ds.getRoom r).history = l ++ [x]) :
    (ds.undo r).1 = (ds.initRoom r).setRoom r
      ⟨l, (ds.getRoom r).undoneActions ++ [x]⟩ := by
  rw [DrawingState.undo_of_concat h]

lemma DrawingState.undo_snd_of_concat {ds : DrawingState} {r : String}
    {l : List JSVal} {x : JSVal} (h : (ds.getRoom r).history = l ++ [x]) :
    (ds.undo r).2 = true := by
  rw [DrawingState.undo_of_concat h]

lemma DrawingState.redo_fst_of_nil {ds : DrawingState} {r : String}
    (h : (ds.getRoom r).undoneActions = []) :
    (ds.redo r).1 = ds.initRoom r := by
  rw [DrawingState.redo_of_nil h]

lemma DrawingState.redo_snd_of_nil {ds : DrawingState} {r : String}
    (h : (ds.getRoom r).undoneActions = []) :
    (ds.redo r).2 = false := by
  rw [DrawingState.redo_of_nil h]

lemma DrawingState.redo_fst_of_concat {ds : DrawingState} {r : String}
    {u : List JSVal} {x : JSVal}
    (h : (ds.getRoom r).undoneActions = u ++ [x]) :
    (ds.redo r).1 = (ds.initRoom r).setRoom r
      ⟨(ds.getRoom r).history ++ [x], u⟩ := by
  rw [DrawingState.redo_of_concat h]

lemma DrawingState.redo_snd_of_concat {ds : DrawingState} {r : String}
    {u : List JSVal} {x : JSVal}
    (h : (ds.getRoom r).undoneActions = u ++ [x]) :
    (ds.redo r).2 = true := by
  rw [DrawingState.redo_of_concat h]

lemma DrawingState.canUndo_fst (ds : DrawingState) (r : String) :
    (ds.canUndo r).1 = ds.initRoom r := rfl

lemma DrawingState.canUndo_snd (ds : DrawingState) (r : String) :
    (ds.canUndo r).2 = decide (0 < (ds.getRoom r).history.length) := by
  show decide (0 < ((ds.initRoom r).getRoom r).history.length) = _
  rw [DrawingState.getRoom_initRoom]

lemma DrawingState.canRedo_fst (ds : DrawingState) (r : String) :
    (ds.canRedo r).1 = ds.initRoom r := rfl

lemma DrawingState.canRedo_snd (ds : DrawingState) (r : String) :
    (ds.canRedo r).2 = decide (0 < (ds.getRoom r).undoneActions.length) := by
  show decide (0 < ((ds.initRoom r).getRoom r).undoneActions.length) = _
  rw [DrawingState.getRoom_initRoom]

lemma handleUndo_of_failure {ds : DrawingState} {r : String}
    (h : (ds.undo r).2 = false) :
    handleUndo ds r = ((ds.undo r).1, []) := by
  simp only [handleUndo, h]
  simp

lemma handleRedo_of_failure {ds : DrawingState} {r : String}
    (h : (ds.redo r).2 = false) :
    handleRedo ds r = ((ds.redo r).1, []) := by
  simp only [handleRedo, h]
  simp

lemma handleDrawAction_of_valid {data : JSVal}
    (hv : invalidDrawData data = false) (ds : DrawingState)
    (roomId senderId : String) (now : Int) :
    handleDrawAction ds roomId senderId data now
      = (ds.addAction roomId (stampAction data senderId now),
        [⟨"DRAW_ACTION", .othersInRoom roomId senderId,
          stampAction data senderId now⟩]) := by
  simp [handleDrawAction, hv]

lemma handleUndo_fst_of_failure {ds : DrawingState} {r : String}
    (h : (ds.undo r).2 = false) : (handleUndo ds r).1 = (ds.undo r).1 := by
  rw [handleUndo_of_failure h]

lemma handleUndo_snd_of_failure {ds : DrawingState} {r : String}
    (h : (ds.undo r).2 = false) : (handleUndo ds r).2 = [] := by
  rw [handleUndo_of_failure h]

lemma handleRedo_fst_of_failure {ds : DrawingState} {r : String}
    (h : (ds.redo r).2 = false) : (handleRedo ds r).1 = (ds.redo r).1 := by
  rw [handleRedo_of_failure h]

lemma handleRedo_snd_of_failure {ds : DrawingState} {r : String}
    (h : (ds.redo r).2 = false) : (handleRedo ds r).2 = [] := by
  rw [handleRedo_of_failure h]

/-! Section: Sample states used by witnesses and counterexamples -/

/-- A state whose default room has a one-action history. -/
def stateOne : DrawingState :=
  DrawingState.new.setRoom "default" ⟨[JSVal.num 1], []⟩

/-- A state whose default room has the three-action history X, Y, Z
(Z most recent). -/
def stateXYZ : DrawingState :=
  DrawingState.new.setRoom "default"
    ⟨[JSVal.num 1, JSVal.num 2, JSVal.num 3], []⟩

/-- Three sample actions. -/
def sampleActions : List JSVal :=
  [JSVal.num 1, JSVal.num 2, JSVal.num 3]

/-! Section: Claims -/

/-- Claim C3: for every room state whose committed history is non-empty,
performing `undo()` immediately followed by `redo()` yields a history equal
to the one before, with the same elements in the same order (and both calls
report success). -/
theorem undo_redo_roundtrip (ds : DrawingState) (roomId : String)
    (h : 0 < (ds.getRoom roomId).history.length) :
    (ds.undo roomId).2 = true
    ∧ ((ds.undo roomId).1.redo roomId).2 = true
    ∧ (((ds.undo roomId).1.redo roomId).1.getRoom roomId).history
        = (ds.getRoom roomId).history := by
  rcases List.eq_nil_or_concat ((ds.getRoom roomId).history) with hn | ⟨l, x, hc⟩
  · rw [hn] at h
    simp at h
  · rw [List.concat_eq_append] at hc
    have h1 := DrawingState.undo_fst_of_concat hc
    have h2 : (((ds.undo roomId).1).getRoom roomId).undoneActions
        = (ds.getRoom roomId).undoneActions ++ [x] := by
      rw [h1, DrawingState.getRoom_setRoom_self]
    have h3 : (((ds.undo roomId).1).getRoom roomId).history = l := by
      rw [h1, DrawingState.getRoom_setRoom_self]
    refine ⟨DrawingState.undo_snd_of_concat hc,
      DrawingState.redo_snd_of_concat h2, ?_⟩
    rw [DrawingState.redo_fst_of_concat h2, DrawingState.getRoom_setRoom_self]
    show (((ds.undo roomId).1).getRoom roomId).history ++ [x]
      = (ds.getRoom roomId).history
    rw [h3, hc]

/-- Claim C3 witness: the round trip at a concrete one-action history. -/
theorem undo_redo_roundtrip_witness :
    0 < ((stateOne).getRoom "default").history.length
    ∧ ((stateOne.undo "default").2 = true
      ∧ ((stateOne.undo "default").1.redo "default").2 = true
      ∧ (((stateOne.undo "default").1.redo "default").1.getRoom "default").history
          = (stateOne.getRoom "default").history) :=
  ⟨by decide, undo_redo_roundtrip stateOne "default" (by decide)⟩

/-- Claim C4: `addAction` always leaves the undo-stack of the room empty;
in particular after a successful `undo` followed by `addAction`, the
undo-stack is empty and a subsequent `redo` returns `false` and leaves the
state exactly unchanged. -/
theorem append_clears_undo_stack (ds : DrawingState) (roomId : String)
    (a b : JSVal) :
    ((ds.addAction roomId a).getRoom roomId).undoneActions = []
    ∧ ((ds.undo roomId).2 = true →
        (((ds.undo roomId).1.addAction roomId b).getRoom roomId).undoneActions = []
        ∧ ((ds.undo roomId).1.addAction roomId b).redo roomId
            = ((ds.undo roomId).1.addAction roomId b, false)) := by
  constructor
  · rw [DrawingState.getRoom_addAction_self]
  · intro _
    constructor
    · rw [DrawingState.getRoom_addAction_self]
    · have hu : ((((ds.undo roomId).1.addAction roomId b)).getRoom roomId).undoneActions
          = [] := by
        rw [DrawingState.getRoom_addAction_self]
      have hi : ((ds.undo roomId).1.addAction roomId b).initRoom roomId
          = (ds.undo roomId).1.addAction roomId b :=
        DrawingState.initRoom_of_isSome (DrawingState.rooms_addAction_isSome _ _ _)
      rw [DrawingState.redo_of_nil hu, hi]

/-- Claim C4 witness: the invalidation at a concrete one-action history. -/
theorem append_clears_undo_stack_witness :
    ((stateOne.addAction "default" (JSVal.num 5)).getRoom "default").undoneActions = []
    ∧ ((stateOne.undo "default").2 = true
      ∧ ((((stateOne.undo "default").1.addAction "default" (JSVal.num 6)).getRoom "default").undoneActions = []
        ∧ ((stateOne.undo "default").1.addAction "default" (JSVal.num 6)).redo "default"
            = ((stateOne.undo "default").1.addAction "default" (JSVal.num 6), false))) :=
  ⟨(append_clears_undo_stack stateOne "default" (JSVal.num 5) (JSVal.num 6)).1,
    by decide,
    (append_clears_undo_stack stateOne "default" (JSVal.num 5) (JSVal.num 6)).2
      (by decide)⟩

/-- Claim C5: appending `N` actions with `N` larger than the configured
maximum to a fresh state leaves the history at exactly the maximum length,
holding the most recently appended actions in append order with the oldest
evicted first, and no sequence of operations ever pushes a room's history
beyond the maximum. -/
theorem history_bound_fifo (maxSize : Nat) (roomId : String) (l : List JSVal)
    (ops : List DSOp) (r' : String) (hN : l.length > maxSize) :
    ((applyOps (freshState maxSize) (l.map (DSOp.addAction roomId))).getRoom roomId).history
        = l.drop (l.length - maxSize)
    ∧ ((applyOps (freshState maxSize) (l.map (DSOp.addAction roomId))).getRoom roomId).history.length
        = maxSize
    ∧ ((applyOps (freshState maxSize) ops).getRoom r').history.length ≤ maxSize := by
  have h1 : ((applyOps (freshState maxSize) (l.map (DSOp.addAction roomId))).getRoom roomId).history
      = l.drop (l.length - maxSize) := by
    rw [applyOps_map_addAction, history_foldl_addAction]
    show l.foldl (pushBounded maxSize) [] = _
    rw [foldl_pushBounded maxSize l [] (by simp)]
    simp
  refine ⟨h1, ?_, ?_⟩
  · rw [h1, List.length_drop]
    omega
  · have h4 := stateInv_applyOps ops (stateInv_freshState maxSize) r'
    rw [MAX_applyOps, MAX_freshState] at h4
    omega

/-- Claim C5 witness: appending 3 actions with the maximum configured to 2
keeps the last two actions, and an operation sequence stays within the
bound. -/
theorem history_bound_fifo_witness :
    sampleActions.length > 2
    ∧ (((applyOps (freshState 2) (sampleActions.map (DSOp.addAction "default"))).getRoom "default").history
        = sampleActions.drop (sampleActions.length - 2)
      ∧ ((applyOps (freshState 2) (sampleActions.map (DSOp.addAction "default"))).getRoom "default").history.length = 2
      ∧ ((applyOps (freshState 2) [DSOp.undo "default"]).getRoom "default").history.length ≤ 2) :=
  ⟨by decide,
    history_bound_fifo 2 "default" sampleActions [DSOp.undo "default"] "default"
      (by decide)⟩

/-- Claim C6 (amended): from a room history `[X, Y, Z]` (Z most recent),
two undo calls leave `history = [X]` and push Z and then Y onto the
undo-stack (Y most recently undone, on top), so a subsequent `redo()`
restores Y first and a second `redo()` restores Z. -/
theorem two_undos_then_redo_order (ds : DrawingState) (roomId : String)
    (x y z : JSVal) (hh : (ds.getRoom roomId).history = [x, y, z]) :
    (((ds.undo roomId).1.undo roomId).1.getRoom roomId).history = [x]
    ∧ (((ds.undo roomId).1.undo roomId).1.getRoom roomId).undoneActions
        = (ds.getRoom roomId).undoneActions ++ [z, y]
    ∧ ((((ds.undo roomId).1.undo roomId).1.redo roomId).1.getRoom roomId).history
        = [x, y]
    ∧ (((((ds.undo roomId).1.undo roomId).1.redo roomId).1.redo roomId).1.getRoom roomId).history
        = [x, y, z] := by
  have hc1 : (ds.getRoom roomId).history = [x, y] ++ [z] := hh
  have e1 := DrawingState.undo_fst_of_concat hc1
  have g1h : (((ds.undo roomId).1).getRoom roomId).history = [x, y] := by
    rw [e1, DrawingState.getRoom_setRoom_self]
  have g1u : (((ds.undo roomId).1).getRoom roomId).undoneActions
      = (ds.getRoom roomId).undoneActions ++ [z] := by
    rw [e1, DrawingState.getRoom_setRoom_self]
  have hc2 : (((ds.undo roomId).1).getRoom roomId).history = [x] ++ [y] := g1h
  have e2 := DrawingState.undo_fst_of_concat hc2
  have g2h : (((ds.undo roomId).1.undo roomId).1.getRoom roomId).history = [x] := by
    rw [e2, DrawingState.getRoom_setRoom_self]
  have g2u : (((ds.undo roomId).1.undo roomId).1.getRoom roomId).undoneActions
      = (ds.getRoom roomId).undoneActions ++ [z, y] := by
    rw [e2, DrawingState.getRoom_setRoom_self]
    show ((ds.undo roomId).1.getRoom roomId).undoneActions ++ [y] = _
    rw [g1u, List.append_assoc]
    rfl
  have hc3 : (((ds.undo roomId).1.undo roomId).1.getRoom roomId).undoneActions
      = ((ds.getRoom roomId).undoneActions ++ [z]) ++ [y] := by
    rw [g2u, List.append_assoc]
    rfl
  have e3 := DrawingState.redo_fst_of_concat hc3
  have g3h : ((((ds.undo roomId).1.undo roomId).1.redo roomId).1.getRoom roomId).history
      = [x, y] := by
    rw [e3, DrawingState.getRoom_setRoom_self]
    show (((ds.undo roomId).1.undo roomId).1.getRoom roomId).history ++ [y] = _
    rw [g2h]
    rfl
  have g3u : ((((ds.undo roomId).1.undo roomId).1.redo roomId).1.getRoom roomId).undoneActions
      = (ds.getRoom roomId).undoneActions ++ [z] := by
    rw [e3, DrawingState.getRoom_setRoom_self]
  have e4 := DrawingState.redo_fst_of_concat g3u
  refine ⟨g2h, g2u, g3h, ?_⟩
  rw [e4, DrawingState.getRoom_setRoom_self]
  show ((((ds.undo roomId).1.undo roomId).1.redo roomId).1.getRoom roomId).history ++ [z] = _
  rw [g3h]
  rfl

/-- Claim C6 witness: the amended behaviour at the concrete history
[1, 2, 3]. -/
theorem two_undos_then_redo_order_witness :
    (stateXYZ.getRoom "default").history
        = [JSVal.num 1, JSVal.num 2, JSVal.num 3]
    ∧ ((((stateXYZ.undo "default").1.undo "default").1.getRoom "default").history = [JSVal.num 1]
      ∧ (((stateXYZ.undo "default").1.undo "default").1.getRoom "default").undoneActions
          = (stateXYZ.getRoom "default").undoneActions ++ [JSVal.num 3, JSVal.num 2]
      ∧ ((((stateXYZ.undo "default").1.undo "default").1.redo "default").1.getRoom "default").history
          = [JSVal.num 1, JSVal.num 2]
      ∧ (((((stateXYZ.undo "default").1.undo "default").1.redo "default").1.redo "default").1.getRoom "default").history
          = [JSVal.num 1, JSVal.num 2, JSVal.num 3]) :=
  ⟨rfl, two_undos_then_redo_order stateXYZ "default"
    (JSVal.num 1) (JSVal.num 2) (JSVal.num 3) rfl⟩

/-- Claim C6 counterexample: with history [1, 2, 3] and two undos, the first
`redo()` restores Y (the action 2), not Z (the action 3): the history
becomes [1, 2], which differs from [1, 3]. -/
theorem two_undos_redo_order_cex :
    ((((stateXYZ.undo "default").1.undo "default").1.redo "default").1.getRoom "default").history
        = [JSVal.num 1, JSVal.num 2]
    ∧ ([JSVal.num 1, JSVal.num 2] : List JSVal) ≠ [JSVal.num 1, JSVal.num 3] := by
  constructor
  · rfl
  · simp

/-- Claim C8: with an empty history, `undo` returns the boolean `false`, the
room's contents are unchanged, and the `UNDO` handler emits nothing; the same
silent no-op holds for `redo` and the `REDO` handler when the undone-actions
stack is empty. -/
theorem undo_redo_empty_noop (ds : DrawingState) (roomId : String) :
    ((ds.getRoom roomId).history = [] →
      (ds.undo roomId).2 = false
      ∧ (ds.undo roomId).1.getRoom roomId = ds.getRoom roomId
      ∧ (handleUndo ds roomId).2 = []
      ∧ (handleUndo ds roomId).1.getRoom roomId = ds.getRoom roomId)
    ∧ ((ds.getRoom roomId).undoneActions = [] →
      (ds.redo roomId).2 = false
      ∧ (ds.redo roomId).1.getRoom roomId = ds.getRoom roomId
      ∧ (handleRedo ds roomId).2 = []
      ∧ (handleRedo ds roomId).1.getRoom roomId = ds.getRoom roomId) := by
  constructor
  · intro h
    have h2 := DrawingState.undo_snd_of_nil h
    refine ⟨h2, ?_, handleUndo_snd_of_failure h2, ?_⟩
    · rw [DrawingState.undo_fst_of_nil h, DrawingState.getRoom_initRoom]
    · rw [handleUndo_fst_of_failure h2, DrawingState.undo_fst_of_nil h,
        DrawingState.getRoom_initRoom]
  · intro h
    have h2 := DrawingState.redo_snd_of_nil h
    refine ⟨h2, ?_, handleRedo_snd_of_failure h2, ?_⟩
    · rw [DrawingState.redo_fst_of_nil h, DrawingState.getRoom_initRoom]
    · rw [handleRedo_fst_of_failure h2, DrawingState.redo_fst_of_nil h,
        DrawingState.getRoom_initRoom]

/-- Claim C8 witness: the no-op at the fresh state, whose default room has
an empty history and an empty undone-actions stack. -/
theorem undo_redo_empty_noop_witness :
    ((DrawingState.new.getRoom "default").history = []
      ∧ (DrawingState.new.getRoom "default").undoneActions = [])
    ∧ ((DrawingState.new.undo "default").2 = false
      ∧ (DrawingState.new.undo "default").1.getRoom "default" = DrawingState.new.getRoom "default"
      ∧ (handleUndo DrawingState.new "default").2 = []
      ∧ (handleUndo DrawingState.new "default").1.getRoom "default" = DrawingState.new.getRoom "default")
    ∧ ((DrawingState.new.redo "default").2 = false
      ∧ (DrawingState.new.redo "default").1.getRoom "default" = DrawingState.new.getRoom "default"
      ∧ (handleRedo DrawingState.new "default").2 = []
      ∧ (handleRedo DrawingState.new "default").1.getRoom "default" = DrawingState.new.getRoom "default") :=
  ⟨⟨rfl, rfl⟩,
    (undo_redo_empty_noop DrawingState.new "default").1 rfl,
    (undo_redo_empty_noop DrawingState.new "default").2 rfl⟩

/-- Claim C10: `undo` reports success exactly when `canUndo` held
immediately before, `redo` exactly when `canRedo` held, and the availability
queries change no room's history or undone-actions contents. -/
theorem undo_redo_success_iff_can (ds : DrawingState) (roomId r' : String) :
    ((ds.undo roomId).2 = (ds.canUndo roomId).2)
    ∧ ((ds.redo roomId).2 = (ds.canRedo roomId).2)
    ∧ ((ds.canUndo roomId).1.getRoom r' = ds.getRoom r')
    ∧ ((ds.canRedo roomId).1.getRoom r' = ds.getRoom r') := by
  refine ⟨?_, ?_, ?_, ?_⟩
  · rw [DrawingState.canUndo_snd]
    rcases List.eq_nil_or_concat ((ds.getRoom roomId).history) with hn | ⟨l, x, hc⟩
    · rw [DrawingState.undo_snd_of_nil hn, hn]
      simp
    · rw [List.concat_eq_append] at hc
      rw [DrawingState.undo_snd_of_concat hc, hc]
      simp
  · rw [DrawingState.canRedo_snd]
    rcases List.eq_nil_or_concat ((ds.getRoom roomId).undoneActions) with hn | ⟨u, x, hc⟩
    · rw [DrawingState.redo_snd_of_nil hn, hn]
      simp
    · rw [List.concat_eq_append] at hc
      rw [DrawingState.redo_snd_of_concat hc, hc]
      simp
  · rw [DrawingState.canUndo_fst, DrawingState.getRoom_initRoom]
  · rw [DrawingState.canRedo_fst, DrawingState.getRoom_initRoom]

/-- Claim C1 (amended): a validated stroke event whose `finalized` flag is
absent or `false` is relayed to all other participants of the room, and is
also appended to the Action Log: the room's history afterwards is the
bounded push of the stamped action onto the history before. -/
theorem nonfinalized_stroke_relayed_and_appended (ds : DrawingState)
    (roomId senderId : String) (data : JSVal) (now : Int)
    (hv : invalidDrawData data = false)
    (_hf : data.getField "finalized" = .undefined
      ∨ data.getField "finalized" = .bool false) :
    ((handleDrawAction ds roomId senderId data now).1.getRoom roomId).history
        = pushBounded ds.MAX_HISTORY_SIZE (ds.getRoom roomId).history
            (stampAction data senderId now)
    ∧ (handleDrawAction ds roomId senderId data now).2
        = [⟨"DRAW_ACTION", .othersInRoom roomId senderId,
            stampAction data senderId now⟩] := by
  rw [handleDrawAction_of_valid hv]
  refine ⟨?_, rfl⟩
  show ((ds.addAction roomId (stampAction data senderId now)).getRoom roomId).history = _
  rw [DrawingState.getRoom_addAction_self]

/-- Claim C1 witness: the amended behaviour at a concrete non-finalized
stroke payload from the fresh state. -/
theorem nonfinalized_stroke_relayed_and_appended_witness :
    (invalidDrawData sampleStroke = false
      ∧ JSVal.getField sampleStroke "finalized" = .undefined)
    ∧ (((handleDrawAction DrawingState.new "default" "alice" sampleStroke 7).1.getRoom "default").history
        = pushBounded DrawingState.new.MAX_HISTORY_SIZE
            (DrawingState.new.getRoom "default").history
            (stampAction sampleStroke "alice" 7)
      ∧ (handleDrawAction DrawingState.new "default" "alice" sampleStroke 7).2
        = [⟨"DRAW_ACTION", .othersInRoom "default" "alice",
            stampAction sampleStroke "alice" 7⟩]) :=
  ⟨⟨rfl, rfl⟩,
    nonfinalized_stroke_relayed_and_appended DrawingState.new "default" "alice"
      sampleStroke 7 rfl (Or.inl rfl)⟩

/-- Claim C1 counterexample: a validated stroke event without a `finalized`
flag IS appended to the Action Log — from the fresh state its handling
leaves a history of length 1, not the unchanged length 0 the claim
demands. -/
theorem nonfinalized_stroke_appended_cex :
    invalidDrawData sampleStroke = false
    ∧ JSVal.getField sampleStroke "finalized" = .undefined
    ∧ (DrawingState.new.getRoom "default").history.length = 0
    ∧ ((handleDrawAction DrawingState.new "default" "alice" sampleStroke 7).1.getRoom "default").history.length = 1 :=
  ⟨rfl, rfl, rfl, rfl⟩

/-- Claim C2 (amended): a validated stroke event carrying `finalized = true`
is appended to the Action Log (bounded push of the stamped action) and then
broadcast to all OTHER participants in the room — the sender is excluded
from the broadcast. -/
theorem finalized_stroke_appended_broadcast_others (ds : DrawingState)
    (roomId senderId : String) (data : JSVal) (now : Int)
    (hv : invalidDrawData data = false)
    (_hf : data.getField "finalized" = .bool true) :
    ((handleDrawAction ds roomId senderId data now).1.getRoom roomId).history
        = pushBounded ds.MAX_HISTORY_SIZE (ds.getRoom roomId).history
            (stampAction data senderId now)
    ∧ (handleDrawAction ds roomId senderId data now).2
        = [⟨"DRAW_ACTION", .othersInRoom roomId senderId,
            stampAction data senderId now⟩] := by
  rw [handleDrawAction_of_valid hv]
  refine ⟨?_, rfl⟩
  show ((ds.addAction roomId (stampAction data senderId now)).getRoom roomId).history = _
  rw [DrawingState.getRoom_addAction_self]

/-- Claim C2 witness: the amended behaviour at a concrete finalized stroke
payload from the fresh state. -/
theorem finalized_stroke_appended_broadcast_others_witness :
    (invalidDrawData sampleStrokeFinalized = false
      ∧ JSVal.getField sampleStrokeFinalized "finalized" = .bool true)
    ∧ (((handleDrawAction DrawingState.new "default" "alice" sampleStrokeFinalized 7).1.getRoom "default").history
        = pushBounded DrawingState.new.MAX_HISTORY_SIZE
            (DrawingState.new.getRoom "default").history
            (stampAction sampleStrokeFinalized "alice" 7)
      ∧ (handleDrawAction DrawingState.new "default" "alice" sampleStrokeFinalized 7).2
        = [⟨"DRAW_ACTION", .othersInRoom "default" "alice",
            stampAction sampleStrokeFinalized "alice" 7⟩]) :=
  ⟨⟨rfl, rfl⟩,
    finalized_stroke_appended_broadcast_others DrawingState.new "default" "alice"
      sampleStrokeFinalized 7 rfl rfl⟩

/-- Claim C2 counterexample: handling a validated finalized stroke produces
exactly one emission and that emission does not reach the sender (it is a
`socket.to(roomId)` broadcast excluding the sender), so the stroke is not
broadcast to all participants including the sender. -/
theorem finalized_stroke_excludes_sender_cex :
    invalidDrawData sampleStrokeFinalized = false
    ∧ JSVal.getField sampleStrokeFinalized "finalized" = .bool true
    ∧ (handleDrawAction DrawingState.new "default" "alice" sampleStrokeFinalized 7).2.length = 1
    ∧ ((handleDrawAction DrawingState.new "default" "alice" sampleStrokeFinalized 7).2.all
        (fun e => !(e.audience.reaches "alice"))) = true :=
  ⟨rfl, rfl, rfl, rfl⟩

/-- Claim C7 (amended): the coordinator drops a stroke event silently — no
state change and no emission — exactly when the payload is falsy, lacks a
truthy `path`, or its `path` is not an array; the elements of an array
`path` are not inspected, so an array path is accepted even when empty or
holding non-coordinate values. -/
theorem malformed_draw_dropped (ds : DrawingState) (roomId senderId : String)
    (data : JSVal) (now : Int) :
    (invalidDrawData data = true →
      handleDrawAction ds roomId senderId data now = (ds, []))
    ∧ ((handleDrawAction ds roomId senderId data now).2 = []
        ↔ invalidDrawData data = true) := by
  constructor
  · intro h
    simp [handleDrawAction, h]
  · by_cases h : invalidDrawData data = true
    · simp [handleDrawAction, h]
    · have hv : invalidDrawData data = false := by simpa using h
      rw [handleDrawAction_of_valid hv]
      simp [hv]

/-- Claim C7 witness: a `null` payload is dropped with no state change and
no emission. -/
theorem malformed_draw_dropped_witness :
    invalidDrawData JSVal.null = true
    ∧ handleDrawAction DrawingState.new "default" "alice" JSVal.null 7
        = (DrawingState.new, [])
    ∧ ((handleDrawAction DrawingState.new "default" "alice" JSVal.null 7).2 = []
        ↔ invalidDrawData JSVal.null = true) :=
  ⟨rfl,
    (malformed_draw_dropped DrawingState.new "default" "alice" JSVal.null 7).1 rfl,
    (malformed_draw_dropped DrawingState.new "default" "alice" JSVal.null 7).2⟩

/-- Claim C7 counterexample: a stroke payload whose `path` is an array with
zero coordinate pairs is malformed under the specification's validation
("a proper ordered list of at least one coordinate pair"), yet the handler
accepts it: it passes the code's validation, a stroke emission is produced,
and the history grows — not the silent drop the claim demands. -/
theorem empty_path_accepted_cex :
    specStrokeMalformed emptyPathStroke = true
    ∧ invalidDrawData emptyPathStroke = false
    ∧ (handleDrawAction DrawingState.new "default" "alice" emptyPathStroke 7).2.length = 1
    ∧ ((handleDrawAction DrawingState.new "default" "alice" emptyPathStroke 7).1.getRoom "default").history.length = 1 :=
  ⟨rfl, rfl, rfl, rfl⟩

/-! Section: Membership lemmas for join idempotence -/

lemma RoomManager.getUsers_eq (m : RoomManager) (r : String) :
    m.getUsers r = (m.rooms r).getD [] := by
  unfold RoomManager.getUsers
  cases m.rooms r <;> rfl

lemma RoomManager.rooms_setRoom_self (m : RoomManager) (r : String)
    (users : List User) : (m.setRoom r users).rooms r = some users := by
  simp [RoomManager.setRoom]

lemma RoomManager.addUser_of_found {m : RoomManager} {roomId userId : String}
    (hs : (m.rooms roomId).isSome = true)
    (ha : ((m.rooms roomId).getD []).any (fun u => u.userId == userId) = true)
    (color : String) (now : Int) :
    m.addUser roomId userId color now = m := by
  simp [RoomManager.addUser, hs, ha]

lemma RoomManager.addUser_of_notfound {m : RoomManager} {roomId userId : String}
    (hs : (m.rooms roomId).isSome = true)
    (ha : ((m.rooms roomId).getD []).any (fun u => u.userId == userId) = false)
    (color : String) (now : Int) :
    m.addUser roomId userId color now
      = m.setRoom roomId (((m.rooms roomId).getD [])
          ++ [⟨userId, color, now⟩]) := by
  simp [RoomManager.addUser, hs, ha]

lemma RoomManager.addUser_of_none {m : RoomManager} {roomId : String}
    (hn : m.rooms roomId = none) (userId color : String) (now : Int) :
    m.addUser roomId userId color now
      = (m.setRoom roomId []).setRoom roomId [⟨userId, color, now⟩] := by
  simp [RoomManager.addUser, hn, RoomManager.rooms_setRoom_self]

lemma RoomManager.addUser_isSome (m : RoomManager)
    (roomId userId color : String) (now : Int) :
    ((m.addUser roomId userId color now).rooms roomId).isSome = true := by
  cases hx : m.rooms roomId with
  | none =>
      rw [RoomManager.addUser_of_none hx]
      simp [RoomManager.rooms_setRoom_self]
  | some l =>
      have hs : (m.rooms roomId).isSome = true := by rw [hx]; rfl
      by_cases ha : ((m.rooms roomId).getD []).any
          (fun u => u.userId == userId) = true
      · rw [RoomManager.addUser_of_found hs ha, hx]
        rfl
      · rw [RoomManager.addUser_of_notfound hs (by simpa using ha)]
        simp [RoomManager.rooms_setRoom_self]

lemma RoomManager.addUser_any (m : RoomManager)
    (roomId userId color : String) (now : Int) :
    (((m.addUser roomId userId color now).rooms roomId).getD []).any
      (fun u => u.userId == userId) = true := by
  cases hx : m.rooms roomId with
  | none =>
      rw [RoomManager.addUser_of_none hx]
      simp [RoomManager.rooms_setRoom_self]
  | some l =>
      have hs : (m.rooms roomId).isSome = true := by rw [hx]; rfl
      by_cases ha : ((m.rooms roomId).getD []).any
          (fun u => u.userId == userId) = true
      · rw [RoomManager.addUser_of_found hs ha]
        exact ha
      · rw [RoomManager.addUser_of_notfound hs (by simpa using ha)]
        simp [RoomManager.rooms_setRoom_self, List.any_append]

lemma countUser_append (a b : List User) (id : String) :
    countUser (a ++ b) id = countUser a id + countUser b id := by
  simp [countUser, List.filter_append]

lemma countUser_singleton (id c : String) (t : Int) :
    countUser [⟨id, c, t⟩] id = 1 := by
  simp [countUser]

lemma countUser_pos_of_any {l : List User} {id : String}
    (h : l.any (fun u => u.userId == id) = true) : 0 < countUser l id := by
  rcases List.any_eq_true.mp h with ⟨u, hu, hbeq⟩
  have hm : u ∈ l.filter (fun u => u.userId == id) :=
    List.mem_filter.mpr ⟨hu, hbeq⟩
  show 0 < (l.filter (fun u => u.userId == id)).length
  exact List.length_pos_of_mem hm

lemma countUser_eq_zero_of_any_false {l : List User} {id : String}
    (h : l.any (fun u => u.userId == id) = false) : countUser l id = 0 := by
  show (l.filter (fun u => u.userId == id)).length = 0
  rw [List.length_eq_zero]
  rw [List.filter_eq_nil_iff]
  intro u hu
  rw [List.any_eq_false] at h
  exact h u hu

/-- Claim C9: `addUser` is idempotent — a second call with the same user id
returns the state after the first call exactly (so the existing entry keeps
its color and join time), and when the room held at most one entry for the
id beforehand, exactly one entry for it remains after the two calls. -/
theorem addUser_idempotent (m : RoomManager) (roomId userId c c' : String)
    (t t' : Int) :
    ((m.addUser roomId userId c t).addUser roomId userId c' t'
        = m.addUser roomId userId c t)
    ∧ (countUser (m.getUsers roomId) userId ≤ 1 →
        countUser (((m.addUser roomId userId c t).addUser roomId userId c' t').getUsers roomId)
          userId = 1) := by
  have hs2 := RoomManager.addUser_isSome m roomId userId c t
  have ha2 := RoomManager.addUser_any m roomId userId c t
  have hrepeat := RoomManager.addUser_of_found hs2 ha2 c' t'
  refine ⟨hrepeat, ?_⟩
  intro hle
  rw [hrepeat, RoomManager.getUsers_eq]
  cases hx : m.rooms roomId with
  | none =>
      rw [RoomManager.addUser_of_none hx]
      rw [RoomManager.rooms_setRoom_self]
      rw [Option.getD_some]
      exact countUser_singleton userId c t
  | some l =>
      have hs : (m.rooms roomId).isSome = true := by rw [hx]; rfl
      by_cases ha : ((m.rooms roomId).getD []).any
          (fun u => u.userId == userId) = true
      · rw [RoomManager.addUser_of_found hs ha c t]
        have hpos := countUser_pos_of_any
          (show ((m.rooms roomId).getD []).any (fun u => u.userId == userId) = true from ha)
        rw [RoomManager.getUsers_eq] at hle
        omega
      · rw [RoomManager.addUser_of_notfound hs (by simpa using ha) c t]
        rw [RoomManager.rooms_setRoom_self]
        rw [Option.getD_some]
        rw [countUser_append,
          countUser_eq_zero_of_any_false (by simpa using ha),
          countUser_singleton]

/-- Claim C9 witness: joining twice with the same id from the empty
membership state. -/
theorem addUser_idempotent_witness :
    countUser (RoomManager.new.getUsers "default") "alice" ≤ 1
    ∧ (((RoomManager.new.addUser "default" "alice" "#111111" 1).addUser "default" "alice" "#222222" 2)
        = RoomManager.new.addUser "default" "alice" "#111111" 1)
    ∧ countUser ((((RoomManager.new.addUser "default" "alice" "#111111" 1).addUser "default" "alice" "#222222" 2)).getUsers "default")
        "alice" = 1 :=
  ⟨by decide,
    (addUser_idempotent RoomManager.new "default" "alice" "#111111" "#222222" 1 2).1,
    (addUser_idempotent RoomManager.new "default" "alice" "#111111" "#222222" 1 2).2
      (by decide)⟩

end CollabCanvas
